import Mathlib

/-!
# Verification of the semantic-model admin app data layer

A shallow embedding of `src/admin_app/app_utils.py`: the semantic-model
structured document, its editing operations, the change tracker
(`update_last_validated_model` / `changed_from_last_validated_model`),
the delete-by-index operations, the add-table flow, the publish flow
(`upload_yaml`, `validate_and_upload_tmp_yaml`, `user_upload_yaml`) and a
codec modelled from the spec (the real codec, `proto_to_yaml` /
`yaml_to_semantic_model`, lives outside this excerpt).

Python specifics modelled explicitly: list deletion `del xs[idx]` supports
negative indices and raises `IndexError` out of range (`pyDelAt`); the
truthiness test `if row:` on a string is non-emptiness (`pyTruthy`).
-/

namespace AdminApp

/-- Modelled from the spec (§3): the `default_aggregation` enum of a Measure.
The protobuf enum itself (`semantic_model_pb2.AggregationType`) is not part of
this excerpt; the variant list follows the spec. `unknown` is the default. -/
inductive AggregationType where
  | unknown
  | sum
  | avg
  | min
  | max
  | count
  | count_distinct
  | median
  deriving DecidableEq, Repr

/-- Modelled from the spec (§3): a verified query is opaque to this core;
we model it as an opaque payload string. -/
structure VerifiedQuery where
  payload : String
  deriving DecidableEq, Repr

/-- Modelled from the spec (§3): three-part physical table reference. -/
structure BaseTable where
  database : String
  schema : String
  table : String
  deriving DecidableEq, Repr

/-- Modelled from the spec (§3): a Dimension. -/
structure Dimension where
  name : String
  expr : String
  description : String
  synonyms : List String
  data_type : String
  unique : Bool
  sample_values : List String
  deriving DecidableEq, Repr

/-- Modelled from the spec (§3): a TimeDimension has the same shape as a
Dimension. -/
structure TimeDimension where
  name : String
  expr : String
  description : String
  synonyms : List String
  data_type : String
  unique : Bool
  sample_values : List String
  deriving DecidableEq, Repr

/-- Modelled from the spec (§3): a Measure is a Dimension-shaped entity plus
`default_aggregation`. -/
structure Measure where
  name : String
  expr : String
  description : String
  synonyms : List String
  data_type : String
  default_aggregation : AggregationType
  sample_values : List String
  deriving DecidableEq, Repr

/-- Modelled from the spec (§3): a logical Table. -/
structure Table where
  name : String
  base_table : BaseTable
  description : String
  synonyms : List String
  dimensions : List Dimension
  measures : List Measure
  time_dimensions : List TimeDimension
  deriving DecidableEq, Repr

/-- Modelled from the spec (§3): the SemanticModel document. -/
structure SemanticModel where
  name : String
  description : String
  tables : List Table
  verified_queries : List VerifiedQuery
  deriving DecidableEq, Repr

/-- The empty semantic model, as built by `semantic_model_pb2.SemanticModel()`
in `init_session_states`. -/
def emptyModel : SemanticModel :=
  { name := "", description := "", tables := [], verified_queries := [] }

/-- The slice of `st.session_state` that the change tracker touches
(`init_session_states`). -/
structure SessionState where
  semantic_model : SemanticModel
  last_validated_model : SemanticModel
  validated : Bool
  deriving DecidableEq, Repr

/-- Embeds `update_last_validated_model` (app_utils.py lines 20-25):
`CopyFrom` deep-copies the live model into `last_validated_model`, then
`del last_validated_model.verified_queries[:]` clears the snapshot copy of
`verified_queries`. In this value-level embedding the deep copy is the
value itself. -/
def update_last_validated_model (s : SessionState) : SessionState :=
  { s with
    last_validated_model := { s.semantic_model with verified_queries := [] } }

/-- Embeds `changed_from_last_validated_model` (app_utils.py lines 28-40):
compares every field of the live model against the snapshot except
`verified_queries`, returning true on the first mismatch. The descriptor
field list of the message is `name`, `description`, `tables`,
`verified_queries` (spec §3). -/
def changed_from_last_validated_model (s : SessionState) : Bool :=
  decide (s.semantic_model.name ≠ s.last_validated_model.name) ||
  decide (s.semantic_model.description ≠ s.last_validated_model.description) ||
  decide (s.semantic_model.tables ≠ s.last_validated_model.tables) ||
  false

/-- A mutation of the live model that touches only its `verified_queries`
collection. -/
def setLiveVerifiedQueries (s : SessionState) (vq : List VerifiedQuery) :
    SessionState :=
  { s with semantic_model := { s.semantic_model with verified_queries := vq } }

/-- Python truthiness of a cell holding a string: the empty string is falsy. -/
def pyTruthy (r : String) : Bool := !r.isEmpty

/-- Embeds the commit loop used by every synonym / sample-value editor
(e.g. app_utils.py lines 100-103 and 454-457): after `del collection[:]`,
each data-editor row is appended iff it is truthy. -/
def commitRows (rows : List String) : List String :=
  rows.foldl (fun acc r => if pyTruthy r then acc ++ [r] else acc) []

/-- Embeds the commit effect of the `edit_dimension` dialog (app_utils.py
lines 80-127): every scalar field is overwritten with the widget value and
both collections are whole-collection replaced via the commit loop. -/
def edit_dimension (d : Dimension) (name expr description : String)
    (synRows : List String) (data_type : String) (unique : Bool)
    (svRows : List String) : Dimension :=
  { d with
    name := name
    expr := expr
    description := description
    synonyms := commitRows synRows
    data_type := data_type
    unique := unique
    sample_values := commitRows svRows }

/-- Embeds the commit effect of the table-level synonyms data editor inside
`display_table` (app_utils.py lines 448-457). -/
def replaceTableSynonyms (t : Table) (rows : List String) : Table :=
  { t with synonyms := commitRows rows }

/-- Embeds Python `del xs[idx]`: negative indices count from the end;
an index out of `[-len, len)` raises `IndexError` (the `.error` case). -/
def pyDelAt {α : Type} (xs : List α) (idx : Int) : Except Unit (List α) :=
  let j : Int := if idx < 0 then idx + xs.length else idx
  if 0 ≤ j ∧ j < (xs.length : Int) then .ok (xs.eraseIdx j.toNat)
  else .error ()

/-- Embeds `delete_dimension` (app_utils.py lines 388-394): an early no-op
return when `len(table.dimensions) < idx`, otherwise `del table.dimensions[idx]`
(which may raise). -/
def delete_dimension (t : Table) (idx : Int) : Except Unit Table :=
  if (t.dimensions.length : Int) < idx then .ok t
  else (pyDelAt t.dimensions idx).map fun ds => { t with dimensions := ds }

/-- Embeds `delete_measure` (app_utils.py lines 397-403). -/
def delete_measure (t : Table) (idx : Int) : Except Unit Table :=
  if (t.measures.length : Int) < idx then .ok t
  else (pyDelAt t.measures idx).map fun ms => { t with measures := ms }

/-- Embeds `delete_time_dimension` (app_utils.py lines 406-412). -/
def delete_time_dimension (t : Table) (idx : Int) : Except Unit Table :=
  if (t.time_dimensions.length : Int) < idx then .ok t
  else (pyDelAt t.time_dimensions idx).map fun ts =>
    { t with time_dimensions := ts }

/-- Embeds `semantic_model_exists` (app_utils.py lines 734-740): false when
no model is in the session, otherwise true iff the stripped model name is
non-empty. Python `str.strip()` is modelled by `String.trim`. -/
def semantic_model_exists (sm : Option SemanticModel) : Bool :=
  match sm with
  | some m => decide (m.name.trim ≠ "")
  | none => false

/-- Errors surfaced by the add-table dialog. -/
inductive AddError where
  | duplicate (name : String)
  | inference (msg : String)
  deriving DecidableEq, Repr

/-- The entry-time duplicate check of `add_new_table` (app_utils.py lines
552-554): displays an error when a table of the same name exists, but does
not block the rest of the dialog. -/
def add_new_table_entry_dup (m : SemanticModel) (name : String) : Bool :=
  m.tables.any fun x => x.name = name

/-- Embeds the Add-click path of `add_new_table` (app_utils.py lines
570-591): schema inference runs first (`raw_schema_to_semantic_context`,
abstracted as the `inferred` argument; an exception aborts with the model
unchanged); on success the candidate table is extended with the inferred
dimensions / measures / time dimensions; the duplicate check is then
re-performed against the session model immediately before the append, and a
duplicate aborts with the model unchanged. -/
def add_new_table_commit (m : SemanticModel) (t : Table)
    (inferred : Except String Table) : SemanticModel × Option AddError :=
  match inferred with
  | .error e => (m, some (.inference e))
  | .ok frag =>
    let extended : Table :=
      { t with
        dimensions := t.dimensions ++ frag.dimensions
        measures := t.measures ++ frag.measures
        time_dimensions := t.time_dimensions ++ frag.time_dimensions }
    if m.tables.any (fun x => x.name = t.name) then
      (m, some (.duplicate t.name))
    else
      ({ m with tables := m.tables ++ [extended] }, none)

/-- The well-known transient artifact name `_TMP_FILE_NAME` (app_utils.py
line 17). The timestamp suffix is fixed at process start; any fixed string
models it. -/
def TMP_FILE_NAME : String := "admin_app_temp_model_20240101_000000"

/-- Observable actions of the upload / validate flows, in execution order. -/
inductive Act where
  | stagePut (name : String)
  | stageRemoveTmp
  | validateCall
  | setValidated
  | snapshotModel
  | uiInfo
  | uiSuccess
  | uiWarning
  | uiWrite
  deriving DecidableEq, Repr

/-- Embeds `upload_yaml` (app_utils.py lines 655-689) as its action trace
plus an overall outcome, given that the PUT succeeds. After the PUT, when
`file_name` is not the transient name, exactly one `REMOVE` of the transient
artifact is attempted inside `try ... except Exception: pass`; `removeOk`
says whether that REMOVE succeeds, and the swallowing `except` means the
outcome is success either way. Under the transient name no REMOVE is
attempted. -/
def upload_yaml (fileName : String) (removeOk : Bool) : List Act × Bool :=
  (Act.stagePut fileName ::
    (if fileName ≠ TMP_FILE_NAME then [Act.stageRemoveTmp] else []),
   removeOk || !removeOk)

/-- Embeds `validate_and_upload_tmp_yaml` (app_utils.py lines 692-708):
`validate` runs on the serialized model; on success the transient upload,
`validated = True`, the snapshot (`update_last_validated_model`) and a
success message follow; a validation exception is caught and surfaced as a
warning, nothing else happens. -/
def validate_and_upload_tmp_yaml (validateOk removeOk : Bool) : List Act :=
  Act.validateCall ::
    (if validateOk then
      (upload_yaml TMP_FILE_NAME removeOk).1 ++
        [Act.setValidated, Act.snapshotModel, Act.uiSuccess]
    else [Act.uiWarning])

/-- Embeds `user_upload_yaml` (app_utils.py lines 711-731): when the model
has diverged (`changed_from_last_validated_model`), an info message and
`validate_and_upload_tmp_yaml` run first; the dialog then renders the
file-name input, and when the user submits, `upload_yaml(file_name)` runs —
the submit path is reached regardless of the validation outcome (no early
return after the warning). -/
def user_upload_yaml (diverged validateOk removeOk submit : Bool)
    (fileName : String) : List Act :=
  (if diverged then Act.uiInfo :: validate_and_upload_tmp_yaml validateOk removeOk
   else []) ++
  (if submit then
    Act.uiWrite :: (upload_yaml fileName removeOk).1 ++ [Act.uiSuccess]
   else [])

/-- Modelled from the spec (§4.2, §3): the enum encoding of
`default_aggregation`. The `unknown` placeholder encodes as an empty field
(the codec omits it); every other variant encodes as its name. -/
def aggToStr : AggregationType → String
  | .unknown => ""
  | .sum => "sum"
  | .avg => "avg"
  | .min => "min"
  | .max => "max"
  | .count => "count"
  | .count_distinct => "count_distinct"
  | .median => "median"

/-- Modelled from the spec: lookup of an aggregation variant by name
(`AggregationType.Value`); does not accept the empty string. -/
def aggOfName : String → Option AggregationType
  | "sum" => some .sum
  | "avg" => some .avg
  | "min" => some .min
  | "max" => some .max
  | "count" => some .count
  | "count_distinct" => some .count_distinct
  | "median" => some .median
  | _ => none

/-- Modelled from the spec (§4.2): on decode, an empty aggregation field is
the `unknown` sentinel (asymmetric with encode, which omits `unknown`). -/
def strToAgg (s : String) : Option AggregationType :=
  if s = "" then some .unknown else aggOfName s

/-- Length-delimited string payload: the length in unary (`'1'` marks),
a `':'`, then the raw characters. Self-delimiting for arbitrary content. -/
def encStr (s : String) : List Char :=
  List.replicate s.data.length '1' ++ ':' :: s.data

/-- Boolean payload: a single tag character. -/
def encBool (b : Bool) : List Char :=
  [if b then 't' else 'f']

/-- List payload: the element count in unary, a `':'`, then the
concatenated element payloads. -/
def encList {α : Type} (enc : α → List Char) (xs : List α) : List Char :=
  List.replicate xs.length '1' ++ ':' :: (xs.map enc).flatten

/-- A keyed field of the textual document: `key=` followed by the payload. -/
def encField {α : Type} (key : String) (enc : α → List Char) (a : α) :
    List Char :=
  key.data ++ '=' :: enc a

/-- Splits the leading run of `'1'` marks off the input. -/
def takeOnes : List Char → Nat × List Char
  | [] => (0, [])
  | c :: cs =>
    if c = '1' then ((takeOnes cs).1 + 1, (takeOnes cs).2) else (0, c :: cs)

/-- Decodes a length-delimited string payload. -/
def decStr (cs : List Char) : Option (String × List Char) :=
  match takeOnes cs with
  | (n, r) =>
    match r with
    | ':' :: r2 => some (String.mk (r2.take n), r2.drop n)
    | _ => none

/-- Decodes a boolean payload. -/
def decBool : List Char → Option (Bool × List Char)
  | 't' :: cs => some (true, cs)
  | 'f' :: cs => some (false, cs)
  | _ => none

/-- Decodes an aggregation payload: a string payload interpreted by
`strToAgg`. -/
def decAgg (cs : List Char) : Option (AggregationType × List Char) :=
  match decStr cs with
  | some (s, r) =>
    match strToAgg s with
    | some a => some (a, r)
    | none => none
  | none => none

/-- Decodes `n` consecutive elements with `dec`. -/
def decListAux {α : Type} (dec : List Char → Option (α × List Char)) :
    Nat → List Char → Option (List α × List Char)
  | 0, cs => some ([], cs)
  | n + 1, cs =>
    match dec cs with
    | some (a, cs2) =>
      match decListAux dec n cs2 with
      | some (as, cs3) => some (a :: as, cs3)
      | none => none
    | none => none

/-- Decodes a list payload: unary count, `':'`, then the elements. -/
def decList {α : Type} (dec : List Char → Option (α × List Char))
    (cs : List Char) : Option (List α × List Char) :=
  match takeOnes cs with
  | (n, r) =>
    match r with
    | ':' :: r2 => decListAux dec n r2
    | _ => none

/-- Consumes an expected literal character sequence. -/
def expectChars : List Char → List Char → Option (List Char)
  | [], cs => some cs
  | _ :: _, [] => none
  | l :: ls, c :: cs => if c = l then expectChars ls cs else none

/-- Decodes a keyed field: the key literal, `'='`, then the payload. -/
def decField {α : Type} (key : String)
    (dec : List Char → Option (α × List Char)) (cs : List Char) :
    Option (α × List Char) :=
  match expectChars key.data cs with
  | some cs1 =>
    match cs1 with
    | '=' :: cs2 => dec cs2
    | _ => none
  | none => none

/-- Modelled from the spec (§6): the three-part physical reference entry. -/
def encBaseTable (b : BaseTable) : List Char :=
  encField "database" encStr b.database ++
  encField "schema" encStr b.schema ++
  encField "table" encStr b.table

/-- Decoder for `encBaseTable`. -/
def decBaseTable (cs : List Char) : Option (BaseTable × List Char) :=
  match decField "database" decStr cs with
  | none => none
  | some (database, cs) =>
  match decField "schema" decStr cs with
  | none => none
  | some (schema, cs) =>
  match decField "table" decStr cs with
  | none => none
  | some (table, cs) =>
    some ({ database := database, schema := schema, table := table }, cs)

/-- Verified queries are opaque payloads (spec §3). -/
def encVerifiedQuery (v : VerifiedQuery) : List Char :=
  encField "payload" encStr v.payload

/-- Decoder for `encVerifiedQuery`. -/
def decVerifiedQuery (cs : List Char) : Option (VerifiedQuery × List Char) :=
  match decField "payload" decStr cs with
  | none => none
  | some (payload, cs) => some ({ payload := payload }, cs)

/-- Modelled from the spec (§6, §3): a dimension entry with its fields in
declaration order. -/
def encDimension (d : Dimension) : List Char :=
  encField "name" encStr d.name ++
  encField "expr" encStr d.expr ++
  encField "description" encStr d.description ++
  encField "synonyms" (encList encStr) d.synonyms ++
  encField "data_type" encStr d.data_type ++
  encField "unique" encBool d.unique ++
  encField "sample_values" (encList encStr) d.sample_values

/-- Decoder for `encDimension`. -/
def decDimension (cs : List Char) : Option (Dimension × List Char) :=
  match decField "name" decStr cs with
  | none => none
  | some (name, cs) =>
  match decField "expr" decStr cs with
  | none => none
  | some (expr, cs) =>
  match decField "description" decStr cs with
  | none => none
  | some (description, cs) =>
  match decField "synonyms" (decList decStr) cs with
  | none => none
  | some (synonyms, cs) =>
  match decField "data_type" decStr cs with
  | none => none
  | some (data_type, cs) =>
  match decField "unique" decBool cs with
  | none => none
  | some (unique, cs) =>
  match decField "sample_values" (decList decStr) cs with
  | none => none
  | some (sample_values, cs) =>
    some ({ name := name, expr := expr, description := description,
            synonyms := synonyms, data_type := data_type, unique := unique,
            sample_values := sample_values }, cs)

/-- A time-dimension entry, same shape as a dimension. -/
def encTimeDimension (d : TimeDimension) : List Char :=
  encField "name" encStr d.name ++
  encField "expr" encStr d.expr ++
  encField "description" encStr d.description ++
  encField "synonyms" (encList encStr) d.synonyms ++
  encField "data_type" encStr d.data_type ++
  encField "unique" encBool d.unique ++
  encField "sample_values" (encList encStr) d.sample_values

/-- Decoder for `encTimeDimension`. -/
def decTimeDimension (cs : List Char) : Option (TimeDimension × List Char) :=
  match decField "name" decStr cs with
  | none => none
  | some (name, cs) =>
  match decField "expr" decStr cs with
  | none => none
  | some (expr, cs) =>
  match decField "description" decStr cs with
  | none => none
  | some (description, cs) =>
  match decField "synonyms" (decList decStr) cs with
  | none => none
  | some (synonyms, cs) =>
  match decField "data_type" decStr cs with
  | none => none
  | some (data_type, cs) =>
  match decField "unique" decBool cs with
  | none => none
  | some (unique, cs) =>
  match decField "sample_values" (decList decStr) cs with
  | none => none
  | some (sample_values, cs) =>
    some ({ name := name, expr := expr, description := description,
            synonyms := synonyms, data_type := data_type, unique := unique,
            sample_values := sample_values }, cs)

/-- A measure entry: dimension shape plus `default_aggregation`, whose
`unknown` value encodes as an empty field (spec §4.2). -/
def encMeasure (m : Measure) : List Char :=
  encField "name" encStr m.name ++
  encField "expr" encStr m.expr ++
  encField "description" encStr m.description ++
  encField "synonyms" (encList encStr) m.synonyms ++
  encField "data_type" encStr m.data_type ++
  encField "default_aggregation" (fun a => encStr (aggToStr a))
    m.default_aggregation ++
  encField "sample_values" (encList encStr) m.sample_values

/-- Decoder for `encMeasure`. -/
def decMeasure (cs : List Char) : Option (Measure × List Char) :=
  match decField "name" decStr cs with
  | none => none
  | some (name, cs) =>
  match decField "expr" decStr cs with
  | none => none
  | some (expr, cs) =>
  match decField "description" decStr cs with
  | none => none
  | some (description, cs) =>
  match decField "synonyms" (decList decStr) cs with
  | none => none
  | some (synonyms, cs) =>
  match decField "data_type" decStr cs with
  | none => none
  | some (data_type, cs) =>
  match decField "default_aggregation" decAgg cs with
  | none => none
  | some (default_aggregation, cs) =>
  match decField "sample_values" (decList decStr) cs with
  | none => none
  | some (sample_values, cs) =>
    some ({ name := name, expr := expr, description := description,
            synonyms := synonyms, data_type := data_type,
            default_aggregation := default_aggregation,
            sample_values := sample_values }, cs)

/-- A table entry (spec §6): `base_table` plus the three entity lists in
order. -/
def encTable (t : Table) : List Char :=
  encField "name" encStr t.name ++
  encField "base_table" encBaseTable t.base_table ++
  encField "description" encStr t.description ++
  encField "synonyms" (encList encStr) t.synonyms ++
  encField "dimensions" (encList encDimension) t.dimensions ++
  encField "measures" (encList encMeasure) t.measures ++
  encField "time_dimensions" (encList encTimeDimension) t.time_dimensions

/-- Decoder for `encTable`. -/
def decTable (cs : List Char) : Option (Table × List Char) :=
  match decField "name" decStr cs with
  | none => none
  | some (name, cs) =>
  match decField "base_table" decBaseTable cs with
  | none => none
  | some (base_table, cs) =>
  match decField "description" decStr cs with
  | none => none
  | some (description, cs) =>
  match decField "synonyms" (decList decStr) cs with
  | none => none
  | some (synonyms, cs) =>
  match decField "dimensions" (decList decDimension) cs with
  | none => none
  | some (dimensions, cs) =>
  match decField "measures" (decList decMeasure) cs with
  | none => none
  | some (measures, cs) =>
  match decField "time_dimensions" (decList decTimeDimension) cs with
  | none => none
  | some (time_dimensions, cs) =>
    some ({ name := name, base_table := base_table,
            description := description, synonyms := synonyms,
            dimensions := dimensions, measures := measures,
            time_dimensions := time_dimensions }, cs)

/-- The top-level document (spec §6): keys `name`, `description`, `tables`,
`verified_queries`. -/
def encSemanticModel (m : SemanticModel) : List Char :=
  encField "name" encStr m.name ++
  encField "description" encStr m.description ++
  encField "tables" (encList encTable) m.tables ++
  encField "verified_queries" (encList encVerifiedQuery) m.verified_queries

/-- Decoder for `encSemanticModel`. -/
def decSemanticModel (cs : List Char) : Option (SemanticModel × List Char) :=
  match decField "name" decStr cs with
  | none => none
  | some (name, cs) =>
  match decField "description" decStr cs with
  | none => none
  | some (description, cs) =>
  match decField "tables" (decList decTable) cs with
  | none => none
  | some (tables, cs) =>
  match decField "verified_queries" (decList decVerifiedQuery) cs with
  | none => none
  | some (verified_queries, cs) =>
    some ({ name := name, description := description, tables := tables,
            verified_queries := verified_queries }, cs)

/-- Modelled from the spec (§4.2): `to_text` — the deterministic textual
serialization of a semantic model (standing in for `proto_to_yaml`, which is
outside this excerpt). Field order within each entity and entity order
within each collection are preserved by construction. -/
def to_text (m : SemanticModel) : String :=
  String.mk (encSemanticModel m)

/-- Modelled from the spec (§4.2): `from_text` — parses a textual document
back into a semantic model (standing in for `yaml_to_semantic_model`);
`none` is the `ParseFailure` outcome. -/
def from_text (s : String) : Option SemanticModel :=
  match decSemanticModel s.data with
  | some (m, []) => some m
  | _ => none

/-- Embeds the commit effect of the `add_dimension` dialog (app_utils.py
lines 130-166): a fresh dimension built from the widget values, with the
data-editor rows committed through the truthiness loop. -/
def new_dimension (name expr description : String) (synRows : List String)
    (data_type : String) (unique : Bool) (svRows : List String) : Dimension :=
  { name := name, expr := expr, description := description,
    synonyms := commitRows synRows, data_type := data_type, unique := unique,
    sample_values := commitRows svRows }

/-- Embeds the commit effect of the `edit_measure` dialog (app_utils.py
lines 169-239). The aggregation selectbox shows the enum keys with the
`unknown` key displayed as the empty string: a non-empty choice is resolved
with `AggregationType.Value` (an invalid name raises `ValueError`, which is
caught, leaving the field unchanged); the empty choice resets the field to
`unknown`. -/
def edit_measure (msr : Measure) (name expr description : String)
    (synRows : List String) (data_type : String) (aggChoice : String)
    (svRows : List String) : Measure :=
  { msr with
    name := name
    expr := expr
    description := description
    synonyms := commitRows synRows
    data_type := data_type
    default_aggregation :=
      if aggChoice = "" then .unknown
      else
        match aggOfName aggChoice with
        | some a => a
        | none => msr.default_aggregation
    sample_values := commitRows svRows }

/-- Embeds the commit effect of the `add_measure` dialog (app_utils.py
lines 242-299): a fresh measure whose aggregation stays at the `unknown`
default when the choice is empty or invalid. -/
def new_measure (name expr description : String) (synRows : List String)
    (data_type : String) (aggChoice : String) (svRows : List String) :
    Measure :=
  { name := name, expr := expr, description := description,
    synonyms := commitRows synRows, data_type := data_type,
    default_aggregation :=
      if aggChoice = "" then .unknown
      else (aggOfName aggChoice).getD .unknown,
    sample_values := commitRows svRows }

/-- Embeds the commit effect of the `edit_time_dimension` dialog
(app_utils.py lines 302-344). -/
def edit_time_dimension (td : TimeDimension) (name expr description : String)
    (synRows : List String) (data_type : String) (unique : Bool)
    (svRows : List String) : TimeDimension :=
  { td with
    name := name
    expr := expr
    description := description
    synonyms := commitRows synRows
    data_type := data_type
    unique := unique
    sample_values := commitRows svRows }

/-- Embeds the commit effect of the `add_time_dimension` dialog
(app_utils.py lines 347-385). -/
def new_time_dimension (name expr description : String)
    (synRows : List String) (data_type : String) (unique : Bool)
    (svRows : List String) : TimeDimension :=
  { name := name, expr := expr, description := description,
    synonyms := commitRows synRows, data_type := data_type, unique := unique,
    sample_values := commitRows svRows }

/-- `display_table` edits the first table whose name matches the lookup
name (app_utils.py lines 419-422); this helper applies an edit there. -/
def modifyFirstTableAux (ts : List Table) (tname : String)
    (f : Table → Table) : List Table :=
  match ts with
  | [] => []
  | t :: rest =>
    if t.name = tname then f t :: rest
    else t :: modifyFirstTableAux rest tname f

/-- Applies an edit to the first table named `tname` of the model. -/
def modifyFirstTable (m : SemanticModel) (tname : String) (f : Table → Table) :
    SemanticModel :=
  { m with tables := modifyFirstTableAux m.tables tname f }

/-- Pointwise update of a list element, as the dialogs mutate the entity
object at a given display index. -/
def modifyAt {α : Type} (xs : List α) (i : Nat) (f : α → α) : List α :=
  match xs, i with
  | [], _ => []
  | x :: rest, 0 => f x :: rest
  | x :: rest, n + 1 => x :: modifyAt rest n f

/-- The editing operations of the authoring surface (spec §4.1): add / edit /
delete of tables, dimensions, measures and time dimensions, the model-level
metadata edits, and whole-collection synonym / sample-value replacement
(which is part of every add / edit payload). Target tables are addressed by
name, entities by display index, mirroring the widget wiring. -/
inductive EditOp where
  | setModelName (name : String)
  | setModelDescription (description : String)
  | addTable (t : Table) (inferred : Except String Table)
  | editTableMeta (tname newName db sc tb desc : String)
      (synRows : List String)
  | addDim (tname name expr description : String) (synRows : List String)
      (data_type : String) (unique : Bool) (svRows : List String)
  | editDim (tname : String) (j : Nat) (name expr description : String)
      (synRows : List String) (data_type : String) (unique : Bool)
      (svRows : List String)
  | delDim (tname : String) (idx : Int)
  | addMeas (tname name expr description : String) (synRows : List String)
      (data_type : String) (aggChoice : String) (svRows : List String)
  | editMeas (tname : String) (j : Nat) (name expr description : String)
      (synRows : List String) (data_type : String) (aggChoice : String)
      (svRows : List String)
  | delMeas (tname : String) (idx : Int)
  | addTDim (tname name expr description : String) (synRows : List String)
      (data_type : String) (unique : Bool) (svRows : List String)
  | editTDim (tname : String) (j : Nat) (name expr description : String)
      (synRows : List String) (data_type : String) (unique : Bool)
      (svRows : List String)
  | delTDim (tname : String) (idx : Int)

/-- One editing step on the live model. Delete operations whose underlying
`del` raises leave the model unchanged (the exception propagates out of the
callback before any mutation). -/
def applyOp (m : SemanticModel) (op : EditOp) : SemanticModel :=
  match op with
  | .setModelName n => { m with name := n }
  | .setModelDescription d => { m with description := d }
  | .addTable t inferred => (add_new_table_commit m t inferred).1
  | .editTableMeta tname newName db sc tb desc synRows =>
    modifyFirstTable m tname fun t =>
      { t with
        name := newName
        base_table := { database := db, schema := sc, table := tb }
        description := desc
        synonyms := commitRows synRows }
  | .addDim tname name expr description synRows data_type unique svRows =>
    modifyFirstTable m tname fun t =>
      { t with dimensions := t.dimensions ++
          [new_dimension name expr description synRows data_type unique
            svRows] }
  | .editDim tname j name expr description synRows data_type unique svRows =>
    modifyFirstTable m tname fun t =>
      { t with dimensions := (modifyAt t.dimensions j fun d =>
          edit_dimension d name expr description synRows data_type unique
            svRows) }
  | .delDim tname idx =>
    modifyFirstTable m tname fun t =>
      match delete_dimension t idx with
      | .ok t2 => t2
      | .error _ => t
  | .addMeas tname name expr description synRows data_type aggChoice svRows =>
    modifyFirstTable m tname fun t =>
      { t with measures := t.measures ++
          [new_measure name expr description synRows data_type aggChoice
            svRows] }
  | .editMeas tname j name expr description synRows data_type aggChoice
      svRows =>
    modifyFirstTable m tname fun t =>
      { t with measures := (modifyAt t.measures j fun msr =>
          edit_measure msr name expr description synRows data_type aggChoice
            svRows) }
  | .delMeas tname idx =>
    modifyFirstTable m tname fun t =>
      match delete_measure t idx with
      | .ok t2 => t2
      | .error _ => t
  | .addTDim tname name expr description synRows data_type unique svRows =>
    modifyFirstTable m tname fun t =>
      { t with time_dimensions := t.time_dimensions ++
          [new_time_dimension name expr description synRows data_type unique
            svRows] }
  | .editTDim tname j name expr description synRows data_type unique svRows =>
    modifyFirstTable m tname fun t =>
      { t with time_dimensions := (modifyAt t.time_dimensions j fun td =>
          edit_time_dimension td name expr description synRows data_type
            unique svRows) }
  | .delTDim tname idx =>
    modifyFirstTable m tname fun t =>
      match delete_time_dimension t idx with
      | .ok t2 => t2
      | .error _ => t

/-- The model produced by a finite sequence of editing operations, starting
from the empty model of `init_session_states`. -/
def applyOps (ops : List EditOp) : SemanticModel :=
  ops.foldl applyOp emptyModel

theorem takeOnes_enc (n : Nat) (rest : List Char) :
    takeOnes (List.replicate n '1' ++ ':' :: rest) = (n, ':' :: rest) := by
  induction n with
  | zero => simp [takeOnes]
  | succ k ih => simp [takeOnes, List.replicate_succ, ih]

theorem decStr_enc (s : String) (rest : List Char) :
    decStr (encStr s ++ rest) = some (s, rest) := by
  simp [decStr, encStr, List.append_assoc, takeOnes_enc, List.take_left,
    List.drop_left]

theorem decBool_enc (b : Bool) (rest : List Char) :
    decBool (encBool b ++ rest) = some (b, rest) := by
  cases b <;> rfl

theorem strToAgg_aggToStr (a : AggregationType) :
    strToAgg (aggToStr a) = some a := by
  cases a <;> rfl

theorem decAgg_enc (a : AggregationType) (rest : List Char) :
    decAgg (encStr (aggToStr a) ++ rest) = some (a, rest) := by
  simp [decAgg, decStr_enc, strToAgg_aggToStr]

theorem expectChars_append (lit rest : List Char) :
    expectChars lit (lit ++ rest) = some rest := by
  induction lit with
  | nil => rfl
  | cons c cs ih => simp [expectChars, ih]

theorem decField_enc {α : Type} (key : String)
    (dec : List Char → Option (α × List Char)) (enc : α → List Char) (a : α)
    (rest : List Char) (h : ∀ r, dec (enc a ++ r) = some (a, r)) :
    decField key dec (encField key enc a ++ rest) = some (a, rest) := by
  simp [decField, encField, List.append_assoc, expectChars_append, h]

theorem decListAux_enc {α : Type}
    (dec : List Char → Option (α × List Char)) (enc : α → List Char)
    (xs : List α) (rest : List Char)
    (h : ∀ a ∈ xs, ∀ r, dec (enc a ++ r) = some (a, r)) :
    decListAux dec xs.length ((xs.map enc).flatten ++ rest) =
      some (xs, rest) := by
  induction xs with
  | nil => simp [decListAux]
  | cons x xs ih =>
    have hx := h x (List.mem_cons_self x xs)
    have ih2 := ih fun a ha r => h a (List.mem_cons_of_mem x ha) r
    simp [decListAux, List.append_assoc, hx, ih2]

theorem decList_enc {α : Type}
    (dec : List Char → Option (α × List Char)) (enc : α → List Char)
    (xs : List α) (rest : List Char)
    (h : ∀ a ∈ xs, ∀ r, dec (enc a ++ r) = some (a, r)) :
    decList dec (encList enc xs ++ rest) = some (xs, rest) := by
  simp [decList, encList, List.append_assoc, takeOnes_enc,
    decListAux_enc dec enc xs rest h]

theorem decFieldStr_enc (key s : String) (rest : List Char) :
    decField key decStr (encField key encStr s ++ rest) = some (s, rest) :=
  decField_enc key decStr encStr s rest fun r => decStr_enc s r

theorem decFieldBool_enc (key : String) (b : Bool) (rest : List Char) :
    decField key decBool (encField key encBool b ++ rest) = some (b, rest) :=
  decField_enc key decBool encBool b rest fun r => decBool_enc b r

theorem decFieldAgg_enc (key : String) (a : AggregationType)
    (rest : List Char) :
    decField key decAgg (encField key (fun x => encStr (aggToStr x)) a ++ rest)
      = some (a, rest) :=
  decField_enc key decAgg (fun x => encStr (aggToStr x)) a rest
    fun r => decAgg_enc a r

theorem decFieldList_enc {α : Type} (key : String)
    (dec : List Char → Option (α × List Char)) (enc : α → List Char)
    (xs : List α) (rest : List Char)
    (h : ∀ a ∈ xs, ∀ r, dec (enc a ++ r) = some (a, r)) :
    decField key (decList dec) (encField key (encList enc) xs ++ rest) =
      some (xs, rest) :=
  decField_enc key (decList dec) (encList enc) xs rest
    fun r => decList_enc dec enc xs r h

theorem decFieldListStr_enc (key : String) (xs : List String)
    (rest : List Char) :
    decField key (decList decStr) (encField key (encList encStr) xs ++ rest)
      = some (xs, rest) :=
  decFieldList_enc key decStr encStr xs rest fun a _ r => decStr_enc a r

theorem decBaseTable_enc (b : BaseTable) (rest : List Char) :
    decBaseTable (encBaseTable b ++ rest) = some (b, rest) := by
  simp [decBaseTable, encBaseTable, List.append_assoc, decFieldStr_enc]

theorem decVerifiedQuery_enc (v : VerifiedQuery) (rest : List Char) :
    decVerifiedQuery (encVerifiedQuery v ++ rest) = some (v, rest) := by
  simp [decVerifiedQuery, encVerifiedQuery, decFieldStr_enc]

theorem decDimension_enc (d : Dimension) (rest : List Char) :
    decDimension (encDimension d ++ rest) = some (d, rest) := by
  simp [decDimension, encDimension, List.append_assoc, decFieldStr_enc,
    decFieldBool_enc, decFieldListStr_enc]

theorem decTimeDimension_enc (d : TimeDimension) (rest : List Char) :
    decTimeDimension (encTimeDimension d ++ rest) = some (d, rest) := by
  simp [decTimeDimension, encTimeDimension, List.append_assoc,
    decFieldStr_enc, decFieldBool_enc, decFieldListStr_enc]

theorem decMeasure_enc (m : Measure) (rest : List Char) :
    decMeasure (encMeasure m ++ rest) = some (m, rest) := by
  simp [decMeasure, encMeasure, List.append_assoc, decFieldStr_enc,
    decFieldAgg_enc, decFieldListStr_enc]

theorem decTable_enc (t : Table) (rest : List Char) :
    decTable (encTable t ++ rest) = some (t, rest) := by
  have hbt := decField_enc "base_table" decBaseTable encBaseTable
    t.base_table
  have hd := decFieldList_enc "dimensions" decDimension encDimension
    t.dimensions
  have hm := decFieldList_enc "measures" decMeasure encMeasure t.measures
  have htd := decFieldList_enc "time_dimensions" decTimeDimension
    encTimeDimension t.time_dimensions
  simp [decTable, encTable, List.append_assoc, decFieldStr_enc,
    decFieldListStr_enc,
    fun rest => hbt rest fun r => decBaseTable_enc t.base_table r,
    fun rest => hd rest fun a _ r => decDimension_enc a r,
    fun rest => hm rest fun a _ r => decMeasure_enc a r,
    fun rest => htd rest fun a _ r => decTimeDimension_enc a r]

theorem decSemanticModel_enc (m : SemanticModel) (rest : List Char) :
    decSemanticModel (encSemanticModel m ++ rest) = some (m, rest) := by
  have ht := decFieldList_enc "tables" decTable encTable m.tables
  have hv := decFieldList_enc "verified_queries" decVerifiedQuery
    encVerifiedQuery m.verified_queries
  simp [decSemanticModel, encSemanticModel, List.append_assoc,
    decFieldStr_enc,
    fun rest => ht rest fun a _ r => decTable_enc a r,
    fun rest => hv rest fun a _ r => decVerifiedQuery_enc a r]

theorem from_text_to_text (m : SemanticModel) :
    from_text (to_text m) = some m := by
  have h := decSemanticModel_enc m []
  rw [List.append_nil] at h
  simp [from_text, to_text, h]

theorem commitRows_foldl (rows acc : List String) :
    rows.foldl (fun a r => if pyTruthy r then a ++ [r] else a) acc =
      acc ++ rows.filter pyTruthy := by
  induction rows generalizing acc with
  | nil => simp
  | cons r rs ih =>
    by_cases h : pyTruthy r <;>
      simp [List.foldl_cons, h, ih, List.filter_cons]

theorem commitRows_eq_filter (rows : List String) :
    commitRows rows = rows.filter pyTruthy := by
  simp [commitRows, commitRows_foldl]

/-- Sample entities used to evaluate the theorems on concrete inputs. -/
def sampleBase : BaseTable :=
  { database := "db", schema := "sc", table := "orders_raw" }

/-- A sample dimension. -/
def sampleDim : Dimension :=
  { name := "id", expr := "id", description := "", synonyms := [],
    data_type := "NUMBER", unique := false, sample_values := [] }

/-- A sample measure. -/
def sampleMeas : Measure :=
  { name := "amt", expr := "amt", description := "", synonyms := [],
    data_type := "NUMBER", default_aggregation := .unknown,
    sample_values := [] }

/-- A sample time dimension. -/
def sampleTDim : TimeDimension :=
  { name := "ts", expr := "ts", description := "", synonyms := [],
    data_type := "DATE", unique := false, sample_values := [] }

/-- A sample table with empty entity collections. -/
def ordersTable : Table :=
  { name := "orders", base_table := sampleBase, description := "",
    synonyms := [], dimensions := [], measures := [], time_dimensions := [] }

/-- A sample table with one entity in each collection. -/
def ordersTableFull : Table :=
  { ordersTable with
      dimensions := [sampleDim], measures := [sampleMeas],
      time_dimensions := [sampleTDim] }

/-- A sample model already containing the `orders` table. -/
def modelWithOrders : SemanticModel :=
  { emptyModel with tables := [ordersTable] }

theorem delete_dimension_neg (t : Table) (idx : Int) (h1 : idx < 0)
    (h2 : -idx ≤ (t.dimensions.length : Int)) :
    delete_dimension t idx = .ok { t with dimensions :=
          (t.dimensions.eraseIdx ((t.dimensions.length : Int) + idx).toNat) }
      := by
  have hg : ¬ ((t.dimensions.length : Int) < idx) := by omega
  have hc : 0 ≤ idx + (t.dimensions.length : Int) ∧
      idx + (t.dimensions.length : Int) < (t.dimensions.length : Int) := by
    omega
  have hcomm : idx + (t.dimensions.length : Int) =
      (t.dimensions.length : Int) + idx := by omega
  simp only [delete_dimension, if_neg hg, pyDelAt, if_pos h1, hcomm,
    if_pos (hcomm ▸ hc), Except.map]

theorem delete_measure_neg (t : Table) (idx : Int) (h1 : idx < 0)
    (h2 : -idx ≤ (t.measures.length : Int)) :
    delete_measure t idx = .ok { t with measures :=
          (t.measures.eraseIdx ((t.measures.length : Int) + idx).toNat) }
      := by
  have hg : ¬ ((t.measures.length : Int) < idx) := by omega
  have hc : 0 ≤ idx + (t.measures.length : Int) ∧
      idx + (t.measures.length : Int) < (t.measures.length : Int) := by omega
  have hcomm : idx + (t.measures.length : Int) =
      (t.measures.length : Int) + idx := by omega
  simp only [delete_measure, if_neg hg, pyDelAt, if_pos h1, hcomm,
    if_pos (hcomm ▸ hc), Except.map]

theorem delete_time_dimension_neg (t : Table) (idx : Int) (h1 : idx < 0)
    (h2 : -idx ≤ (t.time_dimensions.length : Int)) :
    delete_time_dimension t idx = .ok { t with time_dimensions :=
          (t.time_dimensions.eraseIdx
            ((t.time_dimensions.length : Int) + idx).toNat) }
      := by
  have hg : ¬ ((t.time_dimensions.length : Int) < idx) := by omega
  have hc : 0 ≤ idx + (t.time_dimensions.length : Int) ∧
      idx + (t.time_dimensions.length : Int) <
        (t.time_dimensions.length : Int) := by omega
  have hcomm : idx + (t.time_dimensions.length : Int) =
      (t.time_dimensions.length : Int) + idx := by omega
  simp only [delete_time_dimension, if_neg hg, pyDelAt, if_pos h1, hcomm,
    if_pos (hcomm ▸ hc), Except.map]

theorem eraseIdx_valid_ne {α : Type} (xs : List α) (j : Nat)
    (h : j < xs.length) : xs.eraseIdx j ≠ xs := by
  intro hEq
  have hlen := congrArg List.length hEq
  rw [List.length_eraseIdx] at hlen
  simp [h] at hlen
  omega

/-- C1: immediately after `update_last_validated_model`,
`changed_from_last_validated_model` is false regardless of the content of
the live model's `verified_queries`, and remains false under any mutation
that touches only `verified_queries`; in general it is false exactly while
every non-`verified_queries` field of the live model agrees with the
snapshot. -/
theorem C1_snapshot_not_diverged (s : SessionState)
    (vq : List VerifiedQuery) :
    changed_from_last_validated_model (update_last_validated_model s)
      = false ∧
    changed_from_last_validated_model
      (setLiveVerifiedQueries (update_last_validated_model s) vq) = false ∧
    (changed_from_last_validated_model s = false ↔
      (s.semantic_model.name = s.last_validated_model.name ∧
       s.semantic_model.description = s.last_validated_model.description ∧
       s.semantic_model.tables = s.last_validated_model.tables)) := by
  refine ⟨?_, ?_, ?_⟩ <;>
    simp [changed_from_last_validated_model, update_last_validated_model,
      setLiveVerifiedQueries, and_assoc]

/-- C7: the snapshot operation deep-copies the live model into
`last_validated_model` and clears `verified_queries` in the snapshot only:
the live model (including its `verified_queries`) and the `validated` flag
are unchanged, and the retained snapshot equals the live model with
`verified_queries` cleared. Sharing is not expressible over values; the
snapshot being a deep copy is reflected by the value-level equality. -/
theorem C7_snapshot_frame (s : SessionState) :
    (update_last_validated_model s).semantic_model = s.semantic_model ∧
    (update_last_validated_model s).semantic_model.verified_queries =
      s.semantic_model.verified_queries ∧
    (update_last_validated_model s).last_validated_model =
      { s.semantic_model with verified_queries := [] } ∧
    (update_last_validated_model s).validated = s.validated :=
  ⟨rfl, rfl, rfl, rfl⟩

/-- C9: `semantic_model_exists` is true exactly when the session holds a
model whose name, stripped of surrounding whitespace, is non-empty; with no
model in the session it is false. -/
theorem C9_exists_iff_nonempty_name (m : SemanticModel) :
    (semantic_model_exists (some m) = true ↔ m.name.trim ≠ "") ∧
    semantic_model_exists none = false := by
  constructor
  · simp [semantic_model_exists]
  · rfl

/-- C8: committing a synonym or sample-value editor replaces the prior
collection with exactly the non-empty candidate rows in display order
(for the dimension editor and the table-level synonyms editor), and the
candidate rows `["a", "", "b"]` commit as `["a", "b"]`. -/
theorem C8_commit_drops_empty_rows (d : Dimension) (t : Table)
    (name expr description data_type : String) (unique : Bool)
    (synRows svRows rows : List String) :
    (edit_dimension d name expr description synRows data_type unique
        svRows).synonyms = synRows.filter pyTruthy ∧
    (edit_dimension d name expr description synRows data_type unique
        svRows).sample_values = svRows.filter pyTruthy ∧
    (replaceTableSynonyms t rows).synonyms = rows.filter pyTruthy ∧
    commitRows ["a", "", "b"] = ["a", "b"] := by
  refine ⟨?_, ?_, ?_, ?_⟩
  · simp [edit_dimension, commitRows_eq_filter]
  · simp [edit_dimension, commitRows_eq_filter]
  · simp [replaceTableSynonyms, commitRows_eq_filter]
  · decide

/-- C2: the claim says delete-by-index is a no-op (without error) whenever
`idx ≥ length`. The code's guard is `len(collection) < idx`, so at
`idx = length` the `del collection[idx]` is still attempted and raises
`IndexError`. This theorem evaluates the three delete operations at the
failing inputs: empty collections with `idx = 0`, and singleton collections
with `idx = 1`. -/
theorem C2_delete_at_length_raises :
    delete_dimension ordersTable 0 = .error () ∧
    delete_measure ordersTable 0 = .error () ∧
    delete_time_dimension ordersTable 0 = .error () ∧
    delete_dimension ordersTableFull 1 = .error () ∧
    delete_measure ordersTableFull 1 = .error () ∧
    delete_time_dimension ordersTableFull 1 = .error () :=
  ⟨rfl, rfl, rfl, rfl, rfl, rfl⟩

/-- C10: for a negative index `idx` with `|idx| ≤ length`, the guard
`len(collection) < idx` never fires, so each delete operation actually
removes the element at position `length + idx` (so it is not a no-op). -/
theorem C10_delete_negative_index (t : Table) (idx : Int) (h1 : idx < 0)
    (hd : -idx ≤ (t.dimensions.length : Int))
    (hm : -idx ≤ (t.measures.length : Int))
    (ht : -idx ≤ (t.time_dimensions.length : Int)) :
    (delete_dimension t idx = .ok { t with dimensions :=
        (t.dimensions.eraseIdx ((t.dimensions.length : Int) + idx).toNat) } ∧
      delete_dimension t idx ≠ .ok t) ∧
    (delete_measure t idx = .ok { t with measures :=
        (t.measures.eraseIdx ((t.measures.length : Int) + idx).toNat) } ∧
      delete_measure t idx ≠ .ok t) ∧
    (delete_time_dimension t idx = .ok { t with time_dimensions :=
        (t.time_dimensions.eraseIdx
          ((t.time_dimensions.length : Int) + idx).toNat) } ∧
      delete_time_dimension t idx ≠ .ok t) := by
  refine ⟨⟨delete_dimension_neg t idx h1 hd, ?_⟩,
    ⟨delete_measure_neg t idx h1 hm, ?_⟩,
    ⟨delete_time_dimension_neg t idx h1 ht, ?_⟩⟩
  · rw [delete_dimension_neg t idx h1 hd]
    intro hEq
    have h2 := congrArg (fun r => match r with
      | Except.ok t2 => t2.dimensions
      | Except.error _ => []) hEq
    exact eraseIdx_valid_ne t.dimensions _ (by omega) h2
  · rw [delete_measure_neg t idx h1 hm]
    intro hEq
    have h2 := congrArg (fun r => match r with
      | Except.ok t2 => t2.measures
      | Except.error _ => []) hEq
    exact eraseIdx_valid_ne t.measures _ (by omega) h2
  · rw [delete_time_dimension_neg t idx h1 ht]
    intro hEq
    have h2 := congrArg (fun r => match r with
      | Except.ok t2 => t2.time_dimensions
      | Except.error _ => []) hEq
    exact eraseIdx_valid_ne t.time_dimensions _ (by omega) h2

/-- C10 witness: deleting at index `-1` from singleton collections removes
the last (only) element of each collection. -/
theorem C10_delete_negative_index_witness :
    (delete_dimension ordersTableFull (-1) = .ok { ordersTableFull with
        dimensions := (ordersTableFull.dimensions.eraseIdx
          ((ordersTableFull.dimensions.length : Int) + -1).toNat) } ∧
      delete_dimension ordersTableFull (-1) ≠ .ok ordersTableFull) ∧
    (delete_measure ordersTableFull (-1) = .ok { ordersTableFull with
        measures := (ordersTableFull.measures.eraseIdx
          ((ordersTableFull.measures.length : Int) + -1).toNat) } ∧
      delete_measure ordersTableFull (-1) ≠ .ok ordersTableFull) ∧
    (delete_time_dimension ordersTableFull (-1) =
        .ok { ordersTableFull with
          time_dimensions := (ordersTableFull.time_dimensions.eraseIdx
            ((ordersTableFull.time_dimensions.length : Int) + -1).toNat) } ∧
      delete_time_dimension ordersTableFull (-1) ≠ .ok ordersTableFull) :=
  C10_delete_negative_index ordersTableFull (-1) (by decide) (by decide)
    (by decide) (by decide)

/-- C5: adding a table whose name collides with an existing table fails
with the duplicate-name error and leaves the model unchanged; the check
fires on the commit path after schema inference has already succeeded,
i.e. it is re-performed immediately before the append, in addition to the
non-blocking entry-time check. -/
theorem C5_duplicate_table_rejected (m : SemanticModel) (t frag : Table)
    (h : (m.tables.any fun x => x.name = t.name) = true) :
    add_new_table_commit m t (.ok frag) = (m, some (.duplicate t.name)) ∧
    add_new_table_entry_dup m t.name = true := by
  constructor
  · simp [add_new_table_commit, h]
  · exact h

/-- C5 witness: adding a second `orders` table to the sample model is
rejected with the duplicate error and the model is unchanged. -/
theorem C5_duplicate_table_rejected_witness :
    add_new_table_commit modelWithOrders ordersTable (.ok ordersTableFull) =
      (modelWithOrders, some (.duplicate ordersTable.name)) ∧
    add_new_table_entry_dup modelWithOrders ordersTable.name = true :=
  C5_duplicate_table_rejected modelWithOrders ordersTable ordersTableFull
    (by decide)

/-- C6: after the successful PUT, publishing under a name other than the
transient one attempts exactly one deletion of the transient artifact while
publishing under the transient name attempts none; the overall publish
succeeds whether or not that deletion succeeds (the failure is swallowed);
and the PUT is the first action. -/
theorem C6_cleanup_policy (fileName : String) (removeOk : Bool) :
    (upload_yaml fileName removeOk).2 = true ∧
    ((upload_yaml fileName removeOk).1.count Act.stageRemoveTmp =
      if fileName = TMP_FILE_NAME then 0 else 1) ∧
    (upload_yaml fileName removeOk).1.head? =
      some (Act.stagePut fileName) := by
  refine ⟨?_, ?_, ?_⟩
  · cases removeOk <;> rfl
  · by_cases h : fileName = TMP_FILE_NAME <;>
      simp [upload_yaml, h, List.count_cons, List.count_nil]
  · rfl

/-- C3 counterexample: a diverged model that fails validation is still
published under the user-chosen name when the user submits — the warning is
surfaced but the flow is not aborted, so the claim's "never publish an
unvalidated divergent model" is false on the code. -/
theorem C3_failed_validation_still_publishes :
    user_upload_yaml true false true true "my_model" =
      [Act.uiInfo, Act.validateCall, Act.uiWarning, Act.uiWrite,
       Act.stagePut "my_model", Act.stageRemoveTmp, Act.uiSuccess] ∧
    Act.uiWarning ∈ user_upload_yaml true false true true "my_model" ∧
    Act.stagePut "my_model" ∈
      user_upload_yaml true false true true "my_model" := by
  refine ⟨by decide, by decide, by decide⟩

/-- C3 amended: in the named-upload flow with a diverged model, validation
always runs first; on success the transient upload, the validated flag and
the snapshot all happen before the named publish; on failure the diagnostic
is surfaced as a warning but the publish is NOT aborted — a submitted
upload proceeds regardless of the validation outcome. -/
theorem C3_upload_flow (validateOk removeOk : Bool) (n : String) :
    user_upload_yaml true validateOk removeOk true n =
      [Act.uiInfo, Act.validateCall] ++
      (if validateOk then
        [Act.stagePut TMP_FILE_NAME, Act.setValidated, Act.snapshotModel,
         Act.uiSuccess]
      else [Act.uiWarning]) ++
      [Act.uiWrite, Act.stagePut n] ++
      (if n = TMP_FILE_NAME then [] else [Act.stageRemoveTmp]) ++
      [Act.uiSuccess] ∧
    Act.stagePut n ∈ user_upload_yaml true validateOk removeOk true n ∧
    (Act.snapshotModel ∈ user_upload_yaml true validateOk removeOk true n ↔
      validateOk = true) ∧
    (Act.uiWarning ∈ user_upload_yaml true validateOk removeOk true n ↔
      validateOk = false) := by
  have htrace : user_upload_yaml true validateOk removeOk true n =
      [Act.uiInfo, Act.validateCall] ++
      (if validateOk then
        [Act.stagePut TMP_FILE_NAME, Act.setValidated, Act.snapshotModel,
         Act.uiSuccess]
      else [Act.uiWarning]) ++
      [Act.uiWrite, Act.stagePut n] ++
      (if n = TMP_FILE_NAME then [] else [Act.stageRemoveTmp]) ++
      [Act.uiSuccess] := by
    cases validateOk <;> by_cases h : n = TMP_FILE_NAME <;>
      simp [user_upload_yaml, validate_and_upload_tmp_yaml, upload_yaml, h]
  refine ⟨htrace, ?_, ?_, ?_⟩ <;> rw [htrace] <;> cases validateOk <;>
    by_cases h : n = TMP_FILE_NAME <;> simp [h]

/-- C4: for every model producible by a finite sequence of the editing
operations, decoding the textual serialization yields the same model. -/
theorem C4_roundtrip_producible (ops : List EditOp) :
    from_text (to_text (applyOps ops)) = some (applyOps ops) :=
  from_text_to_text (applyOps ops)

end AdminApp
